import Mathlib

/-!
# A file-serving connection dispatcher (`thread3.c`)

Shallow embedding of `handle_request`, of the routing decision of the dispatch
loop in `main`, and of the readiness-set updates made by `main` and
`connection_routine`.

Bytes are natural numbers, byte strings are `List Nat`.  The 4096-byte stack
buffer `buff` is a function from index to byte; its contents before the first
`read` are a parameter (`init`), since the C array is not initialised.  The
client is a list of `read` results, the filesystem a function from path to
optional contents, `sendfile` a function from the bytes that remain in the file
to the number of bytes it moves (or an error).  What `handle_request` does to
the outside world is recorded as a list of events.  The log lines (`printf`,
`fprintf`, `perror`) and the `sleep(3)` are left out as events: they touch
neither the socket nor the files.  Undefined behaviour ends a run as a fault.  Descriptors are natural numbers, `time_t` values are
integers and the conversion to `unsigned long` is taken modulo `2 ^ 64`.
-/

namespace Thread3

/-! ## Byte strings and the C string functions used by the handler -/

/-- The bytes of an ASCII string literal. -/
def bytes (s : String) : List Nat := s.data.map Char.toNat

/-- Format string `HTTP_503_FORMAT`. -/
def HTTP_503_FORMAT : List Nat := bytes "HTTP/1.1 503 Service Unavailable\r\n\r\n503\n"

/-- Format string `HTTP_404_FORMAT`. -/
def HTTP_404_FORMAT : List Nat := bytes "HTTP/1.1 404 Not Found\r\n\r\nFile not found\n"

/-- Format string `HTTP_400_FORMAT` (the status line really says 404). -/
def HTTP_400_FORMAT : List Nat := bytes "HTTP/1.1 404 Bad Request\r\n\r\n"

/-- Output of `%ld` for a non-negative value. -/
def decimal (n : Nat) : List Nat := (Nat.toDigits 10 n).map Char.toNat

/-- Result of `sprintf(buff, HTTP_200_FORMAT, size, content_type)`. -/
def HTTP_200_FORMAT (size : Nat) (content_type : List Nat) : List Nat :=
  bytes "HTTP/1.1 200 OK\r\nContent-Length: " ++ decimal size ++
    bytes "\r\nContent-Type: " ++ content_type ++ bytes "\r\n\r\n"

/-- Whether `s` begins with `pre`. -/
def startsWith : List Nat → List Nat → Bool
  | [], _ => true
  | _ :: _, [] => false
  | a :: pre, b :: s => a == b && startsWith pre s

/-- C `strstr(hay, needle)`: offset of the first occurrence of `needle` in the
C string `hay`, `none` for a NULL result. -/
def strstr : List Nat → List Nat → Option Nat
  | [], needle => if startsWith needle [] then some 0 else none
  | h :: t, needle =>
    if startsWith needle (h :: t) then some 0
    else (strstr t needle).map (· + 1)

/-- The C string that starts at index `i` of the buffer: the bytes up to the
first zero byte, looking at no more than `fuel` cells. -/
def cstr (buf : Nat → Nat) : Nat → Nat → List Nat
  | 0, _ => []
  | fuel + 1, i => if buf i = 0 then [] else buf i :: cstr buf fuel (i + 1)

/-! ## The environment of one call of `handle_request` -/

/-- What one call of `read(sockfd, buff, 4096 - 1)` delivers. -/
inductive ReadRes
  | data (bs : List Nat)
  | error
  deriving DecidableEq, Repr

/-- Return value of the `read`: at most 4095 bytes are taken, `-1` on error. -/
def ReadRes.ret : ReadRes → Int
  | .data bs => ((bs.take 4095).length : Int)
  | .error => -1

/-- Buffer after the `read`: the bytes land at `buff[0..]`, every time. -/
def ReadRes.store (buf : Nat → Nat) : ReadRes → Nat → Nat
  | .data bs => fun i => (bs.take 4095).getD i (buf i)
  | .error => buf

/-- Observable actions of `handle_request`. -/
inductive Event
  | write (bs : List Nat)
  | stat (path : List Nat)
  | openFile (path : List Nat)
  | sendfile (chunk : List Nat)
  | closeFile
  | closeSock
  /-- the `read(i, buff, 2048)` of the 503 branch, whose result is dropped -/
  | drain
  deriving DecidableEq, Repr

/-- How the `while (1)` read loop ends. -/
inductive LoopResult
  /-- left by `break`, with the C string then held in `buff` -/
  | headers (s : List Nat)
  /-- left by `return` at `n <= 0` -/
  | gaveUp
  /-- the store `buff[n] = 0` with `n` outside the array -/
  | outOfBounds
  /-- the loop is in `read` again and the client has sent nothing more -/
  | waiting
  deriving DecidableEq, Repr

/-- The read loop of `handle_request`, lines 51-63. -/
def read_loop : (Nat → Nat) → Int → List ReadRes → LoopResult
  | _, _, [] => .waiting
  | buf, n, r :: rest =>
    let n1 := n + r.ret
    if n1 ≤ 0 then .gaveUp
    else if 4096 ≤ n1 then .outOfBounds
    else
      let buf1 := Function.update (r.store buf) n1.toNat 0
      if (strstr (cstr buf1 4096 0) (bytes "\r\n\r\n")).isSome then
        .headers (cstr buf1 4096 0)
      else read_loop buf1 n1 rest

/-- Content type chosen at lines 107-118. -/
def content_type (resource : List Nat) : List Nat :=
  if (strstr resource (bytes ".html")).isSome then bytes "text/html"
  else if (strstr resource (bytes ".css")).isSome then bytes "text/css"
  else if (strstr resource (bytes ".js")).isSome then bytes "text/javascript"
  else if (strstr resource (bytes ".c")).isSome || (strstr resource (bytes ".txt")).isSome then
    bytes "text/plain"
  else bytes "application/octet-stream"

/-- The `do n = sendfile(sockfd, filefd, NULL, 2048); while (n > 0)` loop.
`sf rest` is what a call does when `rest` is left in the file: `none` for
`-1`, `some k` for `k` bytes moved (never more than 2048, never more than is
left).  The result is the chunks sent and whether the loop ended on an error;
`none` when `fuel` calls did not end it. -/
def send_loop (sf : List Nat → Option Nat) : Nat → List Nat → Option (List Event × Bool)
  | 0, _ => none
  | fuel + 1, rest =>
    match sf rest with
    | none => some ([], true)
    | some k =>
      let c := min k (min 2048 rest.length)
      if c = 0 then some ([], false)
      else
        match send_loop sf fuel (rest.drop c) with
        | none => none
        | some (evs, err) => some (Event.sendfile (rest.take c) :: evs, err)

/-- A `sendfile` that always moves all it is asked for: `min(2048, remaining)`
bytes per call. -/
def sendfile_full (rest : List Nat) : Option Nat := some (min 2048 rest.length)

/-- How a call of `handle_request` ends. -/
inductive Outcome
  /-- the function returned, after these events -/
  | returned (tr : List Event)
  /-- undefined behaviour after these events: a store outside `buff`, a NULL
  pointer used, or a freed block read -/
  | fault (tr : List Event)
  /-- the function is still in its read loop, waiting in `read` -/
  | reading
  /-- the function is still in its `sendfile` loop -/
  | streaming (tr : List Event)
  deriving DecidableEq, Repr

/-- Lines 81-138 of `handle_request`, once `resource` has been extracted.
In the `..` branch line 83 frees `resource` and line 85 passes it to `printf`
as a `%s` argument: the freed block is read, which is undefined behaviour,
before the `write` of line 86 is reached. -/
def serve (fs : List Nat → Option (List Nat)) (sf : List Nat → Option Nat)
    (resource : List Nat) : Outcome :=
  if (strstr resource (bytes "..")).isSome then
    .fault []
  else
    let resource := if resource.length = 0 then bytes "index.html" else resource
    match fs resource with
    | none => .returned [.stat resource, .write HTTP_404_FORMAT, .closeSock]
    | some file =>
      let head := [Event.stat resource,
        .write (HTTP_200_FORMAT file.length (content_type resource)),
        .openFile resource]
      match send_loop sf (file.length + 1) file with
      | none => .streaming head
      | some (chunks, true) => .returned (head ++ chunks ++ [.closeFile])
      | some (chunks, false) => .returned (head ++ chunks ++ [.closeFile, .closeSock])

/-- Lines 65-79 of `handle_request`, from the C string `s` left in `buff`:
the `GET` check, then `slash = strstr(buff, "/")`, `space = strstr(slash, " ")`
and the copy of the `space - slash - 1` bytes after the slash. -/
def respond (fs : List Nat → Option (List Nat)) (sf : List Nat → Option Nat)
    (s : List Nat) : Outcome :=
  if !startsWith (bytes "GET") s then .returned []
  else
    match strstr s (bytes "/") with
    | none => .fault []
    | some slash =>
      match strstr (s.drop slash) (bytes " ") with
      | none => .fault []
      | some len => serve fs sf ((s.drop (slash + 1)).take (len - 1))

/-- The function `handle_request`: `init` is the content of `buff` on entry. -/
def handle_request (init : Nat → Nat) (fs : List Nat → Option (List Nat))
    (sf : List Nat → Option Nat) (reads : List ReadRes) : Outcome :=
  match read_loop init 0 reads with
  | .headers s => respond fs sf s
  | .gaveUp => .returned []
  | .outOfBounds => .fault []
  | .waiting => .reading

/-- Bytes that reach the socket: `write` payloads and `sendfile` chunks. -/
def socketBytes : List Event → List Nat
  | [] => []
  | .write bs :: tr => bs ++ socketBytes tr
  | .sendfile c :: tr => c ++ socketBytes tr
  | _ :: tr => socketBytes tr

/-- Number of `close(sockfd)` calls in a trace. -/
def sockCloses (tr : List Event) : Nat := tr.count .closeSock

/-- The buffer after a first `read` of `r` and the store of the final zero. -/
def first_buffer (init : Nat → Nat) (r : List Nat) : Nat → Nat :=
  Function.update (fun i => r.getD i (init i)) r.length 0

/-! ## The dispatch loop of `main` -/

/-- Line 210: `unsigned long time_used = time(NULL) - times[i]`, the `time_t`
difference converted to a 64-bit unsigned value. -/
def time_used (now ts : Int) : Nat := ((now - ts) % 2 ^ 64).toNat

/-- Where the dispatch loop sends a ready descriptor. -/
inductive Route
  /-- lines 214-218: the 503 branch, with what it does to the descriptor -/
  | admission (tr : List Event)
  /-- line 222: `handle_request(i)` -/
  | handler
  deriving DecidableEq, Repr

/-- Lines 209-223 of `main`. -/
def route (now ts : Int) : Route :=
  if time_used now ts > 1 then
    .admission [.drain, .write HTTP_503_FORMAT, .closeSock]
  else .handler

/-- Constant `FD_SETSIZE`: the number of bits of an `fd_set`, and the number
of slots `main` allocates for `times`. -/
def FD_SETSIZE : Nat := 1024

/-- Macro `FD_ZERO`. -/
def FD_ZERO : Nat → Bool := fun _ => false

/-- Macro `FD_SET(fd, set)`; `none` when the bit lies outside the `fd_set`. -/
def FD_SET (fd : Nat) (set : Nat → Bool) : Option (Nat → Bool) :=
  if fd < FD_SETSIZE then some (Function.update set fd true) else none

/-- Macro `FD_CLR(fd, set)`; `none` when the bit lies outside the `fd_set`. -/
def FD_CLR (fd : Nat) (set : Nat → Bool) : Option (Nat → Bool) :=
  if fd < FD_SETSIZE then some (Function.update set fd false) else none

/-- Macro `FD_ISSET(fd, set)`; `none` when the bit lies outside the `fd_set`. -/
def FD_ISSET (fd : Nat) (set : Nat → Bool) : Option Bool :=
  if fd < FD_SETSIZE then some (set fd) else none

/-- The variables shared by `main` and `connection_routine` (the descriptor
set, the tracked maximum, the admission timestamps), and the position of the
dispatch loop of `main`: its snapshot `readfds` and where it stands, `none` at
the top of the `while (1)`, `some i` at the head of the `for` loop with loop
variable `i`. -/
structure Readiness where
  masterfds : Nat → Bool
  maxfd : Nat
  times : Nat → Int
  readfds : Nat → Bool
  scan : Option Nat

/-- Lines 162-171 of `main`: the set holds the event descriptor only; `times`
is fresh from `malloc`, its content is the parameter `garbage`. -/
def init_readiness (efd : Nat) (garbage : Nat → Int) : Option Readiness :=
  match FD_SET efd FD_ZERO with
  | none => none
  | some set =>
    some { masterfds := set, maxfd := efd, times := garbage, readfds := FD_ZERO, scan := none }

/-- Lines 248-256 of `connection_routine`, one accepted connection: insert the
descriptor, raise the maximum if needed, stamp the descriptor with `time(NULL)`.
`none` when the descriptor does not fit the `fd_set` or the `times` array: the
code stores unchecked. -/
def connection_routine (s : Readiness) (newsockfd : Nat) (now : Int) : Option Readiness :=
  match FD_SET newsockfd s.masterfds with
  | none => none
  | some set =>
    if newsockfd < FD_SETSIZE then
      some { s with
        masterfds := set,
        maxfd := if newsockfd > s.maxfd then newsockfd else s.maxfd,
        times := Function.update s.times newsockfd now }
    else none

/-- Lines 209-223 of `main` on the shared state: descriptor `i` is routed by
the time elapsed since the stamp in `times[i]`. -/
def main_route (s : Readiness) (i : Nat) (now : Int) : Route :=
  route now (s.times i)

/-- What the two threads do to connections, in order. -/
inductive Ev
  /-- `connection_routine` inserted the descriptor -/
  | accepted (fd : Nat)
  /-- `main` handed the descriptor to the 503 branch or to `handle_request` -/
  | routed (fd : Nat) (r : Route)
  deriving DecidableEq, Repr

/-- Lines 186-192 of `main`, then the start of the `for` loop: `readfds` is
the snapshot of `masterfds` cut down by `select` to the descriptors that are
ready (`ready` is what the kernel reports). -/
def main_select (s : Readiness) (ready : Nat → Bool) : Readiness :=
  { s with readfds := fun j => s.masterfds j && ready j, scan := some 0 }

/-- Lines 194-224 of `main`, one trip of the `for` loop with loop variable `i`:
the test `i <= maxfd`, then for a ready descriptor either the drain of the
event descriptor or `FD_CLR` followed by the routing at time `now`. -/
def main_scan (efd : Nat) (s : Readiness) (i : Nat) (now : Int) :
    Option (Readiness × List Ev) :=
  if i ≤ s.maxfd then
    match FD_ISSET i s.readfds with
    | none => none
    | some false => some ({ s with scan := some (i + 1) }, [])
    | some true =>
      if i = efd then some ({ s with scan := some (i + 1) }, [])
      else
        match FD_CLR i s.masterfds with
        | none => none
        | some set =>
          some ({ s with masterfds := set, scan := some (i + 1) },
            [.routed i (main_route s i now)])
  else some ({ s with scan := none }, [])

/-- The steps of the two threads.  The critical sections are atomic (they
hold `fdset_lock`), and the acceptor may run between any two steps of `main`. -/
inductive Step
  /-- `accept` returned `newsockfd` at time `now` -/
  | accept (newsockfd : Nat) (now : Int)
  /-- `main` takes its snapshot and `select` reports `ready` -/
  | select (ready : Nat → Bool)
  /-- `main` makes one trip of its `for` loop, reading the clock as `now` -/
  | scan (now : Int)

/-- One step from state `s`, with what it adds to the log.  `none` when the
step cannot be taken there: `accept` never returns the open event descriptor,
the snapshot is taken at the top of the `while` loop only, a trip of the `for`
loop is made inside the loop only; or when the step stores outside an array. -/
def step (efd : Nat) (s : Readiness) : Step → Option (Readiness × List Ev)
  | .accept newsockfd now =>
    if newsockfd = efd then none
    else
      match connection_routine s newsockfd now with
      | none => none
      | some s1 => some (s1, [.accepted newsockfd])
  | .select ready =>
    match s.scan with
    | none => some (main_select s ready, [])
    | some _ => none
  | .scan now =>
    match s.scan with
    | none => none
    | some i => main_scan efd s i now

/-- A run of steps, with the log it builds. -/
def run (efd : Nat) : Readiness → List Ev → List Step → Option (Readiness × List Ev)
  | s, log, [] => some (s, log)
  | s, log, st :: rest =>
    match step efd s st with
    | none => none
    | some (s1, ev) => run efd s1 (log ++ ev) rest

/-- A run from the initialisation of `main`. -/
def execute (efd : Nat) (garbage : Nat → Int) (steps : List Step) :
    Option (Readiness × List Ev) :=
  match init_readiness efd garbage with
  | none => none
  | some s0 => run efd s0 [] steps

/-- How often `fd` was accepted in a log. -/
def accepts (fd : Nat) (log : List Ev) : Nat := log.count (.accepted fd)

/-- Whether an event is a routing of `fd`. -/
def isRouting (fd : Nat) : Ev → Bool
  | .routed g _ => g == fd
  | .accepted _ => false

/-- How often `fd` was routed in a log. -/
def routings (fd : Nat) (log : List Ev) : Nat := (log.filter (isRouting fd)).length

/-- The invariant of the readiness state and its log: bounds, the event
descriptor is a member, members are at most the maximum, what the `for` loop
has still to visit of its snapshot is still in the set, and every routing of a
descriptor has used up an accept of it. -/
def Inv (efd : Nat) (s : Readiness) (log : List Ev) : Prop :=
  efd < FD_SETSIZE ∧ s.maxfd < FD_SETSIZE ∧ s.masterfds efd = true ∧
  (∀ j, s.masterfds j = true → j ≤ s.maxfd) ∧
  (∀ i, s.scan = some i → ∀ fd, s.readfds fd = true → i ≤ fd → fd ≠ efd →
    s.masterfds fd = true) ∧
  (∀ fd, fd ≠ efd →
    routings fd log + (if s.masterfds fd = true then 1 else 0) ≤ accepts fd log) ∧
  routings efd log = 0

/-! ## Vocabulary of the specification -/

/-- The byte string `needle` occurs somewhere in `l`. -/
def occursIn (needle l : List Nat) : Prop := ∃ a b, l = a ++ needle ++ b

/-- The byte string `s` ends with `suf`. -/
def endsWith (suf s : List Nat) : Bool := startsWith suf.reverse s.reverse

/-- Content type as the specification words it: chosen by the suffix of the
name. -/
def suffix_content_type (name : List Nat) : List Nat :=
  if endsWith (bytes ".html") name then bytes "text/html"
  else if endsWith (bytes ".css") name then bytes "text/css"
  else if endsWith (bytes ".js") name then bytes "text/javascript"
  else if endsWith (bytes ".c") name || endsWith (bytes ".txt") name then bytes "text/plain"
  else bytes "application/octet-stream"

/-! ## Basic facts about the string functions -/

theorem startsWith_iff (pre s : List Nat) :
    startsWith pre s = true ↔ ∃ t, s = pre ++ t := by
  induction pre generalizing s with
  | nil => simp [startsWith]
  | cons a pre ih =>
    cases s with
    | nil => simp [startsWith]
    | cons b s =>
      simp only [startsWith, Bool.and_eq_true, beq_iff_eq, ih, List.cons_append,
        List.cons.injEq]
      constructor
      · rintro ⟨rfl, t, rfl⟩
        exact ⟨t, rfl, rfl⟩
      · rintro ⟨t, rfl, rfl⟩
        exact ⟨rfl, t, rfl⟩

theorem strstr_isSome_iff (needle l : List Nat) :
    (strstr l needle).isSome = true ↔ occursIn needle l := by
  induction l with
  | nil =>
    unfold strstr
    by_cases h : startsWith needle [] = true
    · obtain ⟨t, ht⟩ := (startsWith_iff _ _).1 h
      rw [if_pos h]
      simp only [Option.isSome_some, true_iff]
      exact ⟨[], t, by simpa using ht⟩
    · rw [if_neg h]
      simp only [Option.isSome_none, Bool.false_eq_true, false_iff]
      rintro ⟨a, b, hab⟩
      apply h
      rw [startsWith_iff]
      refine ⟨[], ?_⟩
      have h1 := congrArg List.length hab
      simp only [List.length_nil, List.length_append] at h1
      have h2 : needle = [] := List.length_eq_zero.1 (by omega)
      simp [h2]
  | cons x t ih =>
    unfold strstr
    by_cases h : startsWith needle (x :: t) = true
    · obtain ⟨u, hu⟩ := (startsWith_iff _ _).1 h
      rw [if_pos h]
      simp only [Option.isSome_some, true_iff]
      exact ⟨[], u, by simpa using hu⟩
    · rw [if_neg h, Option.isSome_map', ih]
      constructor
      · rintro ⟨a, b, hab⟩
        exact ⟨x :: a, b, by simp [hab]⟩
      · rintro ⟨a, b, hab⟩
        cases a with
        | nil =>
          exfalso
          apply h
          rw [startsWith_iff]
          exact ⟨b, by simpa using hab⟩
        | cons y a =>
          simp only [List.cons_append, List.cons.injEq] at hab
          exact ⟨a, b, hab.2⟩

theorem strstr_eq_none_iff (needle l : List Nat) :
    strstr l needle = none ↔ ¬ occursIn needle l := by
  rw [← strstr_isSome_iff]
  cases strstr l needle <;> simp

/-- The first occurrence of a single byte. -/
theorem strstr_single (c : Nat) (a b : List Nat) (h : c ∉ a) :
    strstr (a ++ c :: b) [c] = some a.length := by
  induction a with
  | nil => simp [strstr, startsWith]
  | cons x a ih =>
    have hx : c ≠ x := fun e => h (by simp [e])
    have ha : c ∉ a := fun e => h (by simp [e])
    simp [strstr, startsWith, hx, ih ha]

/-- The C string read out of a buffer that holds `l` followed by a zero. -/
theorem cstr_of_list (buf : Nat → Nat) (l : List Nat) (fuel k : Nat)
    (h0 : 0 ∉ l) (hl : l.length < fuel)
    (hbuf : ∀ i, i < l.length → buf (k + i) = l.getD i 0)
    (hend : buf (k + l.length) = 0) : cstr buf fuel k = l := by
  induction l generalizing fuel k with
  | nil =>
    cases fuel with
    | zero => rfl
    | succ f => simpa [cstr] using hend
  | cons x l ih =>
    cases fuel with
    | zero => simp at hl
    | succ f =>
      have hx : buf k = x := by simpa using hbuf 0 (by simp)
      have hx0 : x ≠ 0 := fun e => h0 (by simp [e])
      have hl0 : 0 ∉ l := fun e => h0 (by simp [e])
      unfold cstr
      rw [hx, if_neg hx0]
      congr 1
      apply ih f (k + 1) hl0 (by simpa using hl)
      · intro i hi
        have := hbuf (i + 1) (by simpa using hi)
        simpa [Nat.add_assoc, Nat.add_comm 1 i] using this
      · simpa [Nat.add_assoc, Nat.add_comm 1] using hend

/-- First trip through the read loop, for a NUL-free `read` of 1 to 4095 bytes:
the buffer holds exactly these bytes; the loop ends if they contain the blank
line and reads again otherwise. -/
theorem read_loop_first (init : Nat → Nat) (r : List Nat) (rest : List ReadRes)
    (hpos : 0 < r.length) (hlen : r.length ≤ 4095) (h0 : 0 ∉ r) :
    read_loop init 0 (.data r :: rest) =
      if (strstr r (bytes "\r\n\r\n")).isSome then .headers r
      else read_loop (first_buffer init r) r.length rest := by
  have htake : r.take 4095 = r := List.take_of_length_le hlen
  have hret : (ReadRes.data r).ret = (r.length : Int) := by simp [ReadRes.ret, htake]
  have hidx : ((0 : Int) + (ReadRes.data r).ret).toNat = r.length := by
    rw [hret]; simp
  have hst : (ReadRes.data r).store init = fun i => r.getD i (init i) := by
    simp [ReadRes.store, htake]
  have hc : cstr (first_buffer init r) 4096 0 = r := by
    apply cstr_of_list _ _ _ _ h0 (by omega)
    · intro i hi
      have hne : 0 + i ≠ r.length := by omega
      unfold first_buffer
      rw [Function.update_noteq hne]
      simp [List.getD_eq_getElem?_getD, List.getElem?_eq_getElem hi]
    · unfold first_buffer
      rw [Nat.zero_add, Function.update_same]
  have hn : ¬ ((0 : Int) + (ReadRes.data r).ret ≤ 0) := by
    rw [hret]; omega
  have hb : ¬ ((4096 : Int) ≤ 0 + (ReadRes.data r).ret) := by
    rw [hret]; omega
  have hsum : (0 : Int) + (ReadRes.data r).ret = (r.length : Int) := by rw [hret]; simp
  conv_lhs => unfold read_loop
  simp only [hn, hb, if_false, hidx, hst]
  rw [show Function.update (fun i => r.getD i (init i)) r.length 0 = first_buffer init r from rfl,
    hc, hsum]

/-- One `read` that brings a whole NUL-free request ends the read loop, and the
buffer then holds exactly that request. -/
theorem read_loop_single (init : Nat → Nat) (r : List Nat) (rest : List ReadRes)
    (hpos : 0 < r.length) (hlen : r.length ≤ 4095) (h0 : 0 ∉ r)
    (hblank : occursIn (bytes "\r\n\r\n") r) :
    read_loop init 0 (.data r :: rest) = .headers r := by
  rw [read_loop_first init r rest hpos hlen h0, (strstr_isSome_iff _ _).2 hblank]
  rfl

/-- The request-line parse on a C string with a first slash and a first space
after it: the resource is the text between them. -/
theorem respond_parts (fs : List Nat → Option (List Nat)) (sf : List Nat → Option Nat)
    (s a path rest : List Nat) (hget : startsWith (bytes "GET") s = true)
    (hs : s = a ++ 47 :: (path ++ 32 :: rest)) (ha : 47 ∉ a) (hp : 32 ∉ path) :
    respond fs sf s = serve fs sf path := by
  have h1 : strstr s (bytes "/") = some a.length := by
    rw [hs]; exact strstr_single 47 a _ ha
  have hd : s.drop a.length = (47 :: path) ++ 32 :: rest := by
    rw [hs]; simp
  have h2 : strstr (s.drop a.length) (bytes " ") = some (path.length + 1) := by
    rw [hd]
    have := strstr_single 32 (47 :: path) rest (by simpa using hp)
    simpa using this
  have h3 : (s.drop (a.length + 1)).take (path.length + 1 - 1) = path := by
    rw [hs]
    have : (a ++ 47 :: (path ++ 32 :: rest)).drop (a.length + 1) = path ++ 32 :: rest := by
      rw [show a ++ 47 :: (path ++ 32 :: rest) = (a ++ [47]) ++ (path ++ 32 :: rest) by simp]
      exact List.drop_left' (by simp)
    rw [this]
    simp
  unfold respond
  rw [hget]
  simp only [Bool.not_true, Bool.false_eq_true, if_false, h1, h2, h3]

/-- The transfer loop never runs out of calls when it may make one more call
than the file has bytes, whatever `sendfile` does. -/
theorem send_loop_total (sf : List Nat → Option Nat) (fuel : Nat) (rest : List Nat)
    (h : rest.length < fuel) : (send_loop sf fuel rest).isSome = true := by
  induction fuel generalizing rest with
  | zero => omega
  | succ f ih =>
    unfold send_loop
    cases hsf : sf rest with
    | none => rfl
    | some k =>
      simp only
      by_cases hc : min k (min 2048 rest.length) = 0
      · simp [hc]
      · have hlt : (rest.drop (min k (min 2048 rest.length))).length < f := by
          rw [List.length_drop]; omega
        have := ih _ hlt
        rw [if_neg hc]
        cases hr : send_loop sf f (rest.drop (min k (min 2048 rest.length))) with
        | none => rw [hr] at this; simp at this
        | some pr => rfl

/-- With a `sendfile` that moves `min(2048, remaining)` bytes per call the loop
ends without error and its chunks, each of 1 to 2048 bytes, add up to the file. -/
theorem send_loop_full (fuel : Nat) (rest : List Nat) (h : rest.length < fuel) :
    ∃ chunks : List (List Nat),
      send_loop sendfile_full fuel rest = some (chunks.map Event.sendfile, false) ∧
      chunks.flatten = rest ∧ ∀ c ∈ chunks, 0 < c.length ∧ c.length ≤ 2048 := by
  induction fuel generalizing rest with
  | zero => omega
  | succ f ih =>
    unfold send_loop
    simp only [sendfile_full, Nat.min_self]
    by_cases hc : min 2048 rest.length = 0
    · have hr : rest = [] := List.length_eq_zero.1 (by omega)
      exact ⟨[], by simp [hr], by simp [hr], by simp⟩
    · have hlt : (rest.drop (min 2048 rest.length)).length < f := by
        rw [List.length_drop]; omega
      obtain ⟨chunks, h1, h2, h3⟩ := ih _ hlt
      refine ⟨rest.take (min 2048 rest.length) :: chunks, ?_, ?_, ?_⟩
      · rw [if_neg hc, h1]; rfl
      · rw [List.flatten_cons, h2, List.take_append_drop]
      · intro c hcm
        rcases List.mem_cons.1 hcm with rfl | hcm
        · rw [List.length_take]; omega
        · exact h3 c hcm

/-- The `%ld` model on sample sizes. -/
theorem decimal_samples :
    decimal 0 = bytes "0" ∧ decimal 5 = bytes "5" ∧ decimal 5000 = bytes "5000" ∧
    decimal 1234567890 = bytes "1234567890" := by decide

/-- The handler never gets stuck in the transfer loop: one call more than the
file has bytes is always enough, whatever `sendfile` returns. -/
theorem handle_request_streams_out (init : Nat → Nat) (fs : List Nat → Option (List Nat))
    (sf : List Nat → Option Nat) (reads : List ReadRes) (tr : List Event) :
    handle_request init fs sf reads ≠ .streaming tr := by
  have hserve : ∀ res, serve fs sf res ≠ .streaming tr := by
    intro res
    unfold serve
    split
    · intro h; cases h
    · simp only
      split
      · intro h; cases h
      · rename_i file _
        have ht := send_loop_total sf (file.length + 1) file (Nat.lt_succ_self _)
        split
        · rename_i hnone
          rw [hnone] at ht
          cases ht
        · intro h; cases h
        · intro h; cases h
  have hresp : ∀ s, respond fs sf s ≠ .streaming tr := by
    intro s
    unfold respond
    split
    · intro h; cases h
    · split
      · intro h; cases h
      · split
        · intro h; cases h
        · exact hserve _
  rw [handle_request]
  split
  · exact hresp _
  · intro h; cases h
  · intro h; cases h
  · intro h; cases h

theorem bytes_get_slash : bytes "GET /" = [71, 69, 84, 32, 47] := by decide

theorem bytes_http_tail : bytes " HTTP/1.1\r\n\r\n" =
    32 :: bytes "HTTP/1.1" ++ bytes "\r\n\r\n" := by decide

/-- A request `GET /<p> HTTP/1.1` plus blank line that comes in one `read`, with
`p` free of NUL and space: the handler goes on with `p` as the resource. -/
theorem handle_get (init : Nat → Nat) (fs : List Nat → Option (List Nat))
    (sf : List Nat → Option Nat) (p : List Nat) (more : List ReadRes)
    (hnul : 0 ∉ p) (hsp : 32 ∉ p) (hlen : p.length ≤ 4077) :
    handle_request init fs sf
      (.data (bytes "GET /" ++ p ++ bytes " HTTP/1.1\r\n\r\n") :: more) = serve fs sf p := by
  have hl : (bytes "GET /" ++ p ++ bytes " HTTP/1.1\r\n\r\n").length = p.length + 18 := by
    simp only [List.length_append]
    have h1 : (bytes "GET /").length = 5 := by decide
    have h2 : (bytes " HTTP/1.1\r\n\r\n").length = 13 := by decide
    omega
  have h0 : 0 ∉ bytes "GET /" ++ p ++ bytes " HTTP/1.1\r\n\r\n" := by
    simp only [List.mem_append, not_or]
    exact ⟨⟨by decide, hnul⟩, by decide⟩
  have hblank : occursIn (bytes "\r\n\r\n") (bytes "GET /" ++ p ++ bytes " HTTP/1.1\r\n\r\n") := by
    refine ⟨bytes "GET /" ++ p ++ (32 :: bytes "HTTP/1.1"), [], ?_⟩
    rw [bytes_http_tail]; simp
  have hloop := read_loop_single init _ more (by omega) (by omega) h0 hblank
  unfold handle_request
  rw [hloop]
  apply respond_parts fs sf _ [71, 69, 84, 32] p (bytes "HTTP/1.1" ++ bytes "\r\n\r\n")
  · rw [startsWith_iff]
    exact ⟨32 :: 47 :: (p ++ bytes " HTTP/1.1\r\n\r\n"), by
      rw [bytes_get_slash, show bytes "GET" = [71, 69, 84] by decide]; rfl⟩
  · rw [bytes_get_slash, bytes_http_tail]; simp
  · decide
  · exact hsp

/-- Claim C1. A request `GET /<p> HTTP/1.1` with its blank line arrives in one
`read` (so it has at most 4095 bytes, i.e. `p` at most 4077); `p` is a path name
(no NUL byte) without space (byte 32) and without `..`; the resource (`p`, or
`index.html` when `p` is empty) does not exist.  Then `handle_request` returns
after exactly: one `stat` of the resource, one `write` of
`HTTP/1.1 404 Not Found\r\n\r\nFile not found\n`, one `close` of the socket.
No other write, no `open`. -/
theorem not_found_response (init : Nat → Nat) (fs : List Nat → Option (List Nat))
    (sf : List Nat → Option Nat) (p : List Nat) (more : List ReadRes)
    (hnul : 0 ∉ p) (hsp : 32 ∉ p) (hdd : ¬ occursIn (bytes "..") p)
    (hlen : p.length ≤ 4077)
    (hfs : fs (if p = [] then bytes "index.html" else p) = none) :
    handle_request init fs sf
      (.data (bytes "GET /" ++ p ++ bytes " HTTP/1.1\r\n\r\n") :: more) =
    .returned [.stat (if p = [] then bytes "index.html" else p),
      .write (bytes "HTTP/1.1 404 Not Found\r\n\r\nFile not found\n"), .closeSock] := by
  rw [handle_get init fs sf p more hnul hsp hlen]
  unfold serve
  rw [(strstr_eq_none_iff _ _).2 hdd]
  simp only [Option.isSome_none, Bool.false_eq_true, if_false, List.length_eq_zero]
  rw [hfs]
  rfl

/-- Instance of `not_found_response` at `p = missing.txt` on an empty filesystem. -/
theorem not_found_response_witness :
    (0 ∉ bytes "missing.txt" ∧ 32 ∉ bytes "missing.txt" ∧
      ¬ occursIn (bytes "..") (bytes "missing.txt") ∧ (bytes "missing.txt").length ≤ 4077) ∧
    handle_request (fun _ => 0) (fun _ => none) sendfile_full
      [.data (bytes "GET /" ++ bytes "missing.txt" ++ bytes " HTTP/1.1\r\n\r\n")] =
    .returned [.stat (if bytes "missing.txt" = [] then bytes "index.html" else bytes "missing.txt"),
      .write (bytes "HTTP/1.1 404 Not Found\r\n\r\nFile not found\n"), .closeSock] :=
  ⟨⟨by decide, by decide, (strstr_eq_none_iff _ _).1 (by decide), by decide⟩,
    not_found_response (fun _ => 0) (fun _ => none) sendfile_full
      (bytes "missing.txt") [] (by decide) (by decide)
      ((strstr_eq_none_iff _ _).1 (by decide)) (by decide) rfl⟩

/-- Claim C2. A request `GET /<p> HTTP/1.1` with its blank line arrives in one
`read`; `p` is a path name (no NUL byte) without space and without `..`; the
resource (`p`, or `index.html` when `p` is empty) is a file with content `B`;
`sendfile` moves `min(2048, remaining)` bytes per call.  Then `handle_request`
returns (the transfer loop ends), having done: `stat`, one `write` of
`HTTP/1.1 200 OK\r\nContent-Length: <N>\r\nContent-Type: <type>\r\n\r\n` with
`N` the decimal length of `B` and `<type>` the content type chosen for the
resource, `open`, one `sendfile` per chunk, `close` of the file, `close` of the
socket.  The chunks have 1 to 2048 bytes each and concatenate to `B`, and the
bytes on the socket are the header followed by `B`. -/
theorem ok_response (init : Nat → Nat) (fs : List Nat → Option (List Nat))
    (p B : List Nat) (more : List ReadRes)
    (hnul : 0 ∉ p) (hsp : 32 ∉ p) (hdd : ¬ occursIn (bytes "..") p)
    (hlen : p.length ≤ 4077)
    (hfs : fs (if p = [] then bytes "index.html" else p) = some B) :
    ∃ (chunks : List (List Nat)) (tr : List Event),
      handle_request init fs sendfile_full
        (.data (bytes "GET /" ++ p ++ bytes " HTTP/1.1\r\n\r\n") :: more) = .returned tr ∧
      tr = [.stat (if p = [] then bytes "index.html" else p),
          .write (bytes "HTTP/1.1 200 OK\r\nContent-Length: " ++ decimal B.length ++
            bytes "\r\nContent-Type: " ++
            content_type (if p = [] then bytes "index.html" else p) ++ bytes "\r\n\r\n"),
          .openFile (if p = [] then bytes "index.html" else p)] ++
        chunks.map Event.sendfile ++ [.closeFile, .closeSock] ∧
      chunks.flatten = B ∧ (∀ c ∈ chunks, 0 < c.length ∧ c.length ≤ 2048) ∧
      socketBytes tr =
        bytes "HTTP/1.1 200 OK\r\nContent-Length: " ++ decimal B.length ++
          bytes "\r\nContent-Type: " ++
          content_type (if p = [] then bytes "index.html" else p) ++ bytes "\r\n\r\n" ++ B := by
  obtain ⟨chunks, h1, h2, h3⟩ := send_loop_full (B.length + 1) B (Nat.lt_succ_self _)
  refine ⟨chunks, _, ?_, rfl, h2, h3, ?_⟩
  · rw [handle_get init fs sendfile_full p more hnul hsp hlen]
    unfold serve
    rw [(strstr_eq_none_iff _ _).2 hdd]
    simp only [Option.isSome_none, Bool.false_eq_true, if_false, List.length_eq_zero]
    rw [hfs]
    simp only [h1]
    rfl
  · have hsb : ∀ cs : List (List Nat),
        socketBytes (cs.map Event.sendfile ++ [.closeFile, .closeSock]) = cs.flatten := by
      intro cs
      induction cs with
      | nil => rfl
      | cons c cs ih => simp [socketBytes, ih]
    have hsb2 := hsb chunks
    rw [h2] at hsb2
    show _ ++ socketBytes (chunks.map Event.sendfile ++ [.closeFile, .closeSock]) = _
    rw [hsb2]

/-- Instance of `ok_response` at the empty path, `index.html` holding 5000
bytes. -/
theorem ok_response_witness :
    (0 ∉ ([] : List Nat) ∧ 32 ∉ ([] : List Nat) ∧ ¬ occursIn (bytes "..") [] ∧
      ([] : List Nat).length ≤ 4077) ∧
    ∃ (chunks : List (List Nat)) (tr : List Event),
      handle_request (fun _ => 0)
        (fun q => if q = bytes "index.html" then some (List.replicate 5000 120) else none)
        sendfile_full [.data (bytes "GET /" ++ [] ++ bytes " HTTP/1.1\r\n\r\n")] = .returned tr ∧
      tr = [.stat (if ([] : List Nat) = [] then bytes "index.html" else []),
          .write (bytes "HTTP/1.1 200 OK\r\nContent-Length: " ++
            decimal (List.replicate 5000 120).length ++ bytes "\r\nContent-Type: " ++
            content_type (if ([] : List Nat) = [] then bytes "index.html" else []) ++
            bytes "\r\n\r\n"),
          .openFile (if ([] : List Nat) = [] then bytes "index.html" else [])] ++
        chunks.map Event.sendfile ++ [.closeFile, .closeSock] ∧
      chunks.flatten = List.replicate 5000 120 ∧
      (∀ c ∈ chunks, 0 < c.length ∧ c.length ≤ 2048) ∧
      socketBytes tr =
        bytes "HTTP/1.1 200 OK\r\nContent-Length: " ++
          decimal (List.replicate 5000 120).length ++ bytes "\r\nContent-Type: " ++
          content_type (if ([] : List Nat) = [] then bytes "index.html" else []) ++
          bytes "\r\n\r\n" ++ List.replicate 5000 120 :=
  ⟨⟨by decide, by decide, (strstr_eq_none_iff _ _).1 (by decide), by decide⟩,
    ok_response (fun _ => 0)
      (fun q => if q = bytes "index.html" then some (List.replicate 5000 120) else none)
      [] (List.replicate 5000 120) [] (by decide) (by decide)
      ((strstr_eq_none_iff _ _).1 (by decide)) (by decide) rfl⟩

/-- A request `r` that arrives whole in one `read` (at most 4095 bytes, no NUL
byte, the blank line in it), begins with `GET` and has `..` in the text between
its first `/` (byte 47) and the first space (byte 32) after it, takes the
handler into the `..` branch, whatever the filesystem holds: nothing has been
written, stat'ed or opened when the freed `resource` is read. -/
theorem traversal_faults (init : Nat → Nat) (fs : List Nat → Option (List Nat))
    (sf : List Nat → Option Nat) (r a path rest : List Nat) (more : List ReadRes)
    (hlen : r.length ≤ 4095) (hnul : 0 ∉ r)
    (hblank : occursIn (bytes "\r\n\r\n") r)
    (hget : ∃ t, r = bytes "GET" ++ t)
    (hpath : r = a ++ bytes "/" ++ path ++ bytes " " ++ rest)
    (ha : 47 ∉ a) (hp : 32 ∉ path)
    (hdd : occursIn (bytes "..") path) :
    handle_request init fs sf (.data r :: more) = .fault [] := by
  have hpos : 0 < r.length := by
    obtain ⟨t, ht⟩ := hget
    rw [ht, List.length_append]
    have : (bytes "GET").length = 3 := by decide
    omega
  have hloop := read_loop_single init r more hpos hlen hnul hblank
  have hs : r = a ++ 47 :: (path ++ 32 :: rest) := by
    rw [hpath, show bytes "/" = [47] by decide, show bytes " " = [32] by decide]
    simp
  rw [handle_request, hloop]
  show respond fs sf r = _
  rw [respond_parts fs sf r a path rest ((startsWith_iff _ _).2 hget) hs ha hp]
  unfold serve
  rw [(strstr_isSome_iff _ _).2 hdd]
  rfl

/-- Claim C3 fails on the code. For `GET /../etc/passwd HTTP/1.1` and its blank
line, in one `read`, the handler reaches the `..` branch and there reads
`resource` after freeing it (line 83 `free(resource)`, line 85
`printf("[%d] 400 for %s\n", sockfd, resource)`): undefined behaviour, met
before the `write` and the `close` of lines 86-87.  The claim has the handler
write the 400 framing and close the socket on every such request.  No file is
stat'ed or opened, whatever the filesystem holds. -/
theorem traversal_reads_freed (init : Nat → Nat) (fs : List Nat → Option (List Nat))
    (sf : List Nat → Option Nat) :
    handle_request init fs sf [.data (bytes "GET /../etc/passwd HTTP/1.1\r\n\r\n")] =
      .fault [] :=
  traversal_faults init fs sf
    (bytes "GET /../etc/passwd HTTP/1.1\r\n\r\n") (bytes "GET ") (bytes "../etc/passwd")
    (bytes "HTTP/1.1\r\n\r\n") [] (by decide) (by decide)
    ((strstr_isSome_iff _ _).1 (by decide)) ((startsWith_iff _ _).1 (by decide))
    (by decide) (by decide) (by decide) ((strstr_isSome_iff _ _).1 (by decide))

theorem endsWith_iff (suf s : List Nat) :
    endsWith suf s = true ↔ ∃ t, s = t ++ suf := by
  unfold endsWith
  rw [startsWith_iff]
  constructor
  · rintro ⟨t, ht⟩
    refine ⟨t.reverse, ?_⟩
    have := congrArg List.reverse ht
    simpa using this
  · rintro ⟨t, rfl⟩
    exact ⟨t.reverse, by simp⟩

/-- Claim C4, as stated, fails. The three names of the claim end with none of the
listed suffixes, so the suffix rule gives `application/octet-stream`, but the
code answers `text/html`, `text/javascript` and `text/plain`: it looks for the
tokens anywhere in the name. -/
theorem content_type_not_by_suffix :
    (suffix_content_type (bytes "a.html.bin") = bytes "application/octet-stream" ∧
      content_type (bytes "a.html.bin") = bytes "text/html") ∧
    (suffix_content_type (bytes "data.json") = bytes "application/octet-stream" ∧
      content_type (bytes "data.json") = bytes "text/javascript") ∧
    (suffix_content_type (bytes "main.cpp") = bytes "application/octet-stream" ∧
      content_type (bytes "main.cpp") = bytes "text/plain") := by
  decide

/-- Claim C4, amended. The content type is chosen by the first of the tokens
`.html`, `.css`, `.js`, then `.c` or `.txt`, that occurs anywhere in the
resource name: `text/html`, `text/css`, `text/javascript`, `text/plain` in that
order, and `application/octet-stream` exactly when none of them occurs. -/
theorem content_type_by_occurrence (name : List Nat) :
    (content_type name = bytes "text/html" ↔ occursIn (bytes ".html") name) ∧
    (content_type name = bytes "text/css" ↔
      ¬ occursIn (bytes ".html") name ∧ occursIn (bytes ".css") name) ∧
    (content_type name = bytes "text/javascript" ↔
      ¬ occursIn (bytes ".html") name ∧ ¬ occursIn (bytes ".css") name ∧
        occursIn (bytes ".js") name) ∧
    (content_type name = bytes "text/plain" ↔
      ¬ occursIn (bytes ".html") name ∧ ¬ occursIn (bytes ".css") name ∧
        ¬ occursIn (bytes ".js") name ∧
        (occursIn (bytes ".c") name ∨ occursIn (bytes ".txt") name)) ∧
    (content_type name = bytes "application/octet-stream" ↔
      ¬ occursIn (bytes ".html") name ∧ ¬ occursIn (bytes ".css") name ∧
        ¬ occursIn (bytes ".js") name ∧ ¬ occursIn (bytes ".c") name ∧
        ¬ occursIn (bytes ".txt") name) := by
  simp only [← strstr_isSome_iff]
  unfold content_type
  generalize (strstr name (bytes ".html")).isSome = b1
  generalize (strstr name (bytes ".css")).isSome = b2
  generalize (strstr name (bytes ".js")).isSome = b3
  generalize (strstr name (bytes ".c")).isSome = b4
  generalize (strstr name (bytes ".txt")).isSome = b5
  cases b1 <;> cases b2 <;> cases b3 <;> cases b4 <;> cases b5 <;> decide

theorem time_used_add (ts : Int) (e : Nat) : time_used (ts + e) ts = e % 2 ^ 64 := by
  unfold time_used
  rw [add_sub_cancel_left]
  have h : ((e : Int) % 2 ^ 64) = ((e % 2 ^ 64 : Nat) : Int) := by
    push_cast; rfl
  rw [h, Int.toNat_ofNat]

theorem time_used_wrap (ts : Int) : time_used (ts - 1) ts = 2 ^ 64 - 1 := by
  unfold time_used
  rw [show ts - 1 - ts = -1 by ring]
  rfl

/-- Claim C5. With the elapsed time taken as the code computes it (`now - ts`
converted to 64-bit unsigned), the dispatch loop takes the 503 branch, which
drains the socket, writes exactly `HTTP/1.1 503 Service Unavailable\r\n\r\n503\n`,
closes the descriptor and does not call `handle_request`, if and only if the
elapsed time exceeds 1; otherwise it calls `handle_request`.  A dispatch `e`
time units after acceptance has elapsed time `e` (modulo 2^64), so a connection
dispatched 0 or 1 units after its acceptance goes to `handle_request`.  The
timestamp used for a descriptor below `FD_SETSIZE` is the one
`connection_routine` stored when it accepted it.  The unsigned difference wraps: a clock reading one unit before
the timestamp gives an elapsed time of 2^64 - 1. -/
theorem route_by_elapsed (now ts : Int) (e : Nat) :
    (route now ts = .admission [.drain,
        .write (bytes "HTTP/1.1 503 Service Unavailable\r\n\r\n503\n"), .closeSock] ↔
      1 < time_used now ts) ∧
    (route now ts = .handler ↔ time_used now ts ≤ 1) ∧
    time_used (ts + e) ts = e % 2 ^ 64 ∧
    route ts ts = .handler ∧ route (ts + 1) ts = .handler ∧
    (∀ (s : Readiness) (fd : Nat),
      (connection_routine s fd ts).map (fun s1 => main_route s1 fd now) =
        if fd < FD_SETSIZE then some (route now ts) else none) ∧
    time_used (ts - 1) ts = 2 ^ 64 - 1 := by
  refine ⟨?_, ?_, time_used_add ts e, ?_, ?_, ?_, time_used_wrap ts⟩
  rotate_right
  · intro s fd
    unfold connection_routine FD_SET
    by_cases hfd : fd < FD_SETSIZE
    · simp only [hfd, if_true, Option.map_some']
      show some (route now (Function.update s.times fd ts fd)) = _
      rw [Function.update_same]
    · simp only [hfd, if_false, Option.map_none']
  · unfold route
    by_cases h : time_used now ts > 1
    · rw [if_pos h]
      exact ⟨fun _ => h, fun _ => rfl⟩
    · rw [if_neg h]
      exact ⟨fun hh => (by cases hh), fun hh => absurd hh h⟩
  · unfold route
    by_cases h : time_used now ts > 1
    · rw [if_pos h]
      exact ⟨fun hh => (by cases hh), fun hh => (by omega)⟩
    · rw [if_neg h]
      exact ⟨fun _ => (by omega), fun _ => rfl⟩
  · have := time_used_add ts 0
    simp only [Nat.cast_zero, add_zero] at this
    unfold route
    rw [this]
    rfl
  · have := time_used_add ts 1
    simp only [Nat.cast_one] at this
    unfold route
    rw [this]
    rfl

theorem accepts_append (fd : Nat) (l1 l2 : List Ev) :
    accepts fd (l1 ++ l2) = accepts fd l1 + accepts fd l2 := by
  unfold accepts
  exact List.count_append _ _ _

theorem routings_append (fd : Nat) (l1 l2 : List Ev) :
    routings fd (l1 ++ l2) = routings fd l1 + routings fd l2 := by
  unfold routings
  rw [List.filter_append, List.length_append]

/-- The initial state satisfies the invariant. -/
theorem init_inv (efd : Nat) (garbage : Nat → Int) (s0 : Readiness)
    (h : init_readiness efd garbage = some s0) : Inv efd s0 [] := by
  unfold init_readiness FD_SET at h
  by_cases hefd : efd < FD_SETSIZE
  · rw [if_pos hefd] at h
    have hs := (Option.some.inj h).symm
    subst hs
    refine ⟨hefd, hefd, ?_, ?_, ?_, ?_, rfl⟩
    · show Function.update FD_ZERO efd true efd = true
      rw [Function.update_same]
    · intro j hj
      have hj1 : Function.update FD_ZERO efd true j = true := hj
      by_cases hje : j = efd
      · exact Nat.le_of_eq hje
      · rw [Function.update_noteq hje] at hj1
        cases hj1
    · intro i hi
      cases hi
    · intro fd hfd
      have hm : Function.update FD_ZERO efd true fd = false := by
        rw [Function.update_noteq hfd]; rfl
      show routings fd [] + (if Function.update FD_ZERO efd true fd = true then 1 else 0) ≤
        accepts fd []
      rw [hm]
      exact Nat.le_refl _
  · rw [if_neg hefd] at h
    cases h

/-- An accept keeps the invariant. -/
theorem accept_inv (efd : Nat) (s s1 : Readiness) (log : List Ev) (fd : Nat) (now : Int)
    (hI : Inv efd s log) (hne : fd ≠ efd) (h : connection_routine s fd now = some s1) :
    Inv efd s1 (log ++ [.accepted fd]) := by
  obtain ⟨h0, h1, h2, h3, h4, h5, h6⟩ := hI
  unfold connection_routine FD_SET at h
  by_cases hfd : fd < FD_SETSIZE
  · simp only [hfd, if_true] at h
    have hs := (Option.some.inj h).symm
    subst hs
    have hr : ∀ g, routings g (log ++ [Ev.accepted fd]) = routings g log := by
      intro g
      rw [routings_append]
      show routings g log + 0 = routings g log
      rfl
    refine ⟨h0, ?_, ?_, ?_, ?_, ?_, ?_⟩
    · show (if fd > s.maxfd then fd else s.maxfd) < FD_SETSIZE
      split <;> assumption
    · show Function.update s.masterfds fd true efd = true
      rw [Function.update_noteq (Ne.symm hne)]
      exact h2
    · intro j hj
      have hj1 : Function.update s.masterfds fd true j = true := hj
      show j ≤ if fd > s.maxfd then fd else s.maxfd
      by_cases hjf : j = fd
      · rw [hjf]; split <;> omega
      · rw [Function.update_noteq hjf] at hj1
        have := h3 j hj1
        split <;> omega
    · intro i hi g hg hig hge
      show Function.update s.masterfds fd true g = true
      by_cases hgf : g = fd
      · rw [hgf, Function.update_same]
      · rw [Function.update_noteq hgf]
        exact h4 i hi g hg hig hge
    · intro g hg
      have hold := h5 g hg
      rw [hr g, accepts_append]
      show routings g log + (if Function.update s.masterfds fd true g = true then 1 else 0) ≤
        accepts g log + accepts g [Ev.accepted fd]
      by_cases hgf : g = fd
      · rw [hgf, Function.update_same]
        have hone : accepts fd [Ev.accepted fd] = 1 := by simp [accepts]
        rw [hone]
        rw [hgf] at hold
        simp only [if_true]
        split at hold <;> omega
      · rw [Function.update_noteq hgf]
        omega
    · rw [hr efd]
      exact h6
  · simp only [hfd, if_false] at h
    cases h

/-- The snapshot keeps the invariant. -/
theorem select_inv (efd : Nat) (s : Readiness) (log : List Ev) (ready : Nat → Bool)
    (hI : Inv efd s log) : Inv efd (main_select s ready) log := by
  obtain ⟨h0, h1, h2, h3, _, h5, h6⟩ := hI
  refine ⟨h0, h1, h2, h3, ?_, h5, h6⟩
  intro i _ g hg _ _
  have hg1 : (s.masterfds g && ready g) = true := hg
  rw [Bool.and_eq_true] at hg1
  exact hg1.1

/-- A trip of the `for` loop is always defined in a state that satisfies the
invariant, keeps the invariant, and routes at most the descriptor it stands
at, which then is not the event descriptor, was in the set and has left it. -/
theorem scan_inv (efd : Nat) (s : Readiness) (log : List Ev) (i : Nat) (now : Int)
    (hI : Inv efd s log) (hi : s.scan = some i) :
    ∃ s1 ev, main_scan efd s i now = some (s1, ev) ∧ Inv efd s1 (log ++ ev) ∧
      ∀ fd r, Ev.routed fd r ∈ ev →
        fd = i ∧ fd ≠ efd ∧ FD_ISSET fd s.readfds = some true ∧
        FD_ISSET fd s.masterfds = some true ∧
        FD_ISSET fd s1.masterfds = some false ∧ r = route now (s.times fd) := by
  obtain ⟨h0, h1, h2, h3, h4, h5, h6⟩ := hI
  unfold main_scan
  by_cases him : i ≤ s.maxfd
  · have hib : i < FD_SETSIZE := by omega
    rw [if_pos him]
    unfold FD_ISSET
    rw [if_pos hib]
    cases hr : s.readfds i with
    | false =>
      refine ⟨_, _, rfl, ?_, ?_⟩
      · rw [List.append_nil]
        refine ⟨h0, h1, h2, h3, ?_, h5, h6⟩
        intro k hk g hg hkg hge
        have hk1 : i + 1 = k := Option.some.inj hk
        exact h4 i hi g hg (by omega) hge
      · intro fd r hmem
        cases hmem
    | true =>
      by_cases hie : i = efd
      · simp only [hie, if_true]
        refine ⟨_, _, rfl, ?_, ?_⟩
        · rw [List.append_nil]
          refine ⟨h0, h1, h2, h3, ?_, h5, h6⟩
          intro k hk g hg hkg hge
          have hk1 : efd + 1 = k := Option.some.inj hk
          exact h4 i hi g hg (by omega) hge
        · intro fd r hmem
          cases hmem
      · simp only [hie, if_false]
        unfold FD_CLR
        rw [if_pos hib]
        have hmem0 : s.masterfds i = true := h4 i hi i hr (Nat.le_refl _) hie
        refine ⟨_, _, rfl, ?_, ?_⟩
        · have ha : ∀ g, accepts g (log ++ [Ev.routed i (main_route s i now)]) =
              accepts g log := by
            intro g
            rw [accepts_append]
            show accepts g log + 0 = accepts g log
            rfl
          have hrt : ∀ g, routings g (log ++ [Ev.routed i (main_route s i now)]) =
              routings g log + (if i = g then 1 else 0) := by
            intro g
            rw [routings_append]
            congr 1
            by_cases hig : i = g
            · simp [routings, isRouting, hig]
            · simp [routings, isRouting, hig]
          refine ⟨h0, h1, ?_, ?_, ?_, ?_, ?_⟩
          · show Function.update s.masterfds i false efd = true
            rw [Function.update_noteq (Ne.symm hie)]
            exact h2
          · intro j hj
            have hj1 : Function.update s.masterfds i false j = true := hj
            by_cases hji : j = i
            · rw [hji, Function.update_same] at hj1
              cases hj1
            · rw [Function.update_noteq hji] at hj1
              exact h3 j hj1
          · intro k hk g hg hkg hge
            have hk1 : i + 1 = k := Option.some.inj hk
            show Function.update s.masterfds i false g = true
            rw [Function.update_noteq (by omega)]
            exact h4 i hi g hg (by omega) hge
          · intro g hg
            have hold := h5 g hg
            rw [hrt g, ha g]
            show routings g log + (if i = g then 1 else 0) +
              (if Function.update s.masterfds i false g = true then 1 else 0) ≤ accepts g log
            by_cases hig : i = g
            · subst hig
              rw [Function.update_same, if_pos rfl]
              rw [hmem0] at hold
              simp only [if_true] at hold
              simp only [Bool.false_eq_true, if_false]
              omega
            · rw [Function.update_noteq (Ne.symm hig), if_neg hig]
              omega
          · rw [hrt efd, if_neg hie]
            exact h6
        · intro fd r hmem
          rw [List.mem_singleton] at hmem
          have hfd : fd = i := by injection hmem
          have hrr : r = main_route s i now := by injection hmem
          subst hfd
          refine ⟨rfl, hie, ?_, ?_, ?_, hrr⟩
          · rw [if_pos hib, hr]
          · rw [if_pos hib, hmem0]
          · rw [if_pos hib]
            show some (Function.update s.masterfds fd false fd) = some false
            rw [Function.update_same]
  · rw [if_neg him]
    refine ⟨_, _, rfl, ?_, ?_⟩
    · rw [List.append_nil]
      refine ⟨h0, h1, h2, h3, ?_, h5, h6⟩
      intro k hk
      cases hk
    · intro fd r hmem
      cases hmem

/-- Every step keeps the invariant. -/
theorem step_inv (efd : Nat) (s s1 : Readiness) (log ev : List Ev) (st : Step)
    (hI : Inv efd s log) (h : step efd s st = some (s1, ev)) : Inv efd s1 (log ++ ev) := by
  cases st with
  | accept fd now =>
    unfold step at h
    by_cases hfe : fd = efd
    · simp only [hfe, if_true] at h
      cases h
    · simp only [hfe, if_false] at h
      cases hc : connection_routine s fd now with
      | none => rw [hc] at h; cases h
      | some s2 =>
        rw [hc] at h
        have h2 := Option.some.inj h
        have hs : s2 = s1 := congrArg Prod.fst h2
        have he : [Ev.accepted fd] = ev := congrArg Prod.snd h2
        rw [← hs, ← he]
        exact accept_inv efd s s2 log fd now hI hfe hc
  | select ready =>
    unfold step at h
    cases hsc : s.scan with
    | none =>
      simp only [hsc] at h
      have h2 := Option.some.inj h
      have hs : main_select s ready = s1 := congrArg Prod.fst h2
      have he : [] = ev := congrArg Prod.snd h2
      rw [← hs, ← he, List.append_nil]
      exact select_inv efd s log ready hI
    | some i =>
      simp only [hsc] at h
      cases h
  | scan now =>
    unfold step at h
    cases hsc : s.scan with
    | none =>
      simp only [hsc] at h
      cases h
    | some i =>
      simp only [hsc] at h
      obtain ⟨s2, ev2, h1, h2, _⟩ := scan_inv efd s log i now hI hsc
      rw [h1] at h
      have h3 := Option.some.inj h
      have hs : s2 = s1 := congrArg Prod.fst h3
      have he : ev2 = ev := congrArg Prod.snd h3
      rw [← hs, ← he]
      exact h2

/-- Every run keeps the invariant. -/
theorem run_inv (efd : Nat) (steps : List Step) (s s1 : Readiness) (log log1 : List Ev)
    (hI : Inv efd s log) (h : run efd s log steps = some (s1, log1)) : Inv efd s1 log1 := by
  induction steps generalizing s log with
  | nil =>
    unfold run at h
    have h2 := Option.some.inj h
    have hs : s = s1 := congrArg Prod.fst h2
    have hl : log = log1 := congrArg Prod.snd h2
    rw [← hs, ← hl]
    exact hI
  | cons st rest ih =>
    unfold run at h
    cases hst : step efd s st with
    | none => rw [hst] at h; cases h
    | some pr =>
      obtain ⟨s2, ev⟩ := pr
      rw [hst] at h
      exact ih s2 (log ++ ev) (step_inv efd s s2 log ev st hI hst) h

/-- Claim C9. Take any run of the two threads from the initialisation of
`main`: accepts of descriptors other than the event descriptor, snapshots with
`select`, trips of the `for` loop, in any interleaving, with `s` the state and
`log` the accepts and routings so far.  Then: all descriptors in play are below
`FD_SETSIZE`; the event descriptor is in the set and was never routed; every
member of the set is at most the tracked maximum; the next trip of the `for`
loop is defined and, if it routes a descriptor, that descriptor is the ready
one it stands at, is not the event descriptor, was in the set before the trip
and is out of it after, at the moment it is routed by its timestamp; and every
descriptor has been routed at most as often as it has been accepted, less one
if it is still in the set, so it is not dispatched again without a new
accept. -/
theorem readiness_invariant (efd : Nat) (garbage : Nat → Int) (steps : List Step)
    (s : Readiness) (log : List Ev) (h : execute efd garbage steps = some (s, log)) :
    (efd < FD_SETSIZE ∧ s.maxfd < FD_SETSIZE) ∧
    (FD_ISSET efd s.masterfds = some true ∧ routings efd log = 0) ∧
    (∀ j, s.masterfds j = true → j ≤ s.maxfd) ∧
    (∀ i now, s.scan = some i →
      ∃ s1 ev, step efd s (.scan now) = some (s1, ev) ∧
        ∀ fd r, Ev.routed fd r ∈ ev →
          fd = i ∧ fd ≠ efd ∧ FD_ISSET fd s.readfds = some true ∧
          FD_ISSET fd s.masterfds = some true ∧
          FD_ISSET fd s1.masterfds = some false ∧ r = route now (s.times fd)) ∧
    (∀ fd, fd ≠ efd →
      routings fd log + (if s.masterfds fd = true then 1 else 0) ≤ accepts fd log) := by
  have hI : Inv efd s log := by
    unfold execute at h
    cases h0 : init_readiness efd garbage with
    | none => rw [h0] at h; cases h
    | some s0 =>
      rw [h0] at h
      exact run_inv efd steps s0 s [] log (init_inv efd garbage s0 h0) h
  have hI2 := hI
  obtain ⟨h0, h1, h2, h3, _, h5, h6⟩ := hI
  refine ⟨⟨h0, h1⟩, ⟨?_, h6⟩, h3, ?_, h5⟩
  · unfold FD_ISSET
    rw [if_pos h0, h2]
  · intro i now hi
    obtain ⟨s1, ev, hs, _, hr⟩ := scan_inv efd s log i now hI2 hi
    refine ⟨s1, ev, ?_, hr⟩
    unfold step
    simp only [hi]
    exact hs

/-- Instance of `readiness_invariant`: event descriptor 3; descriptor 4 is
accepted at time 100, the snapshot reports everything ready, and six trips of
the `for` loop visit 0 to 4 and leave the loop.  Descriptor 4 has been routed
once, to `handle_request`. -/
theorem readiness_invariant_witness :
    ∃ s log,
      execute 3 (fun _ => 0)
        [.accept 4 100, .select (fun _ => true), .scan 100, .scan 100, .scan 100,
          .scan 100, .scan 100, .scan 100] = some (s, log) ∧
      log = [.accepted 4, .routed 4 .handler] ∧
      (3 < FD_SETSIZE ∧ s.maxfd < FD_SETSIZE) ∧
      (FD_ISSET 3 s.masterfds = some true ∧ routings 3 log = 0) ∧
      (∀ j, s.masterfds j = true → j ≤ s.maxfd) ∧
      (∀ i now, s.scan = some i →
        ∃ s1 ev, step 3 s (.scan now) = some (s1, ev) ∧
          ∀ fd r, Ev.routed fd r ∈ ev →
            fd = i ∧ fd ≠ 3 ∧ FD_ISSET fd s.readfds = some true ∧
            FD_ISSET fd s.masterfds = some true ∧
            FD_ISSET fd s1.masterfds = some false ∧ r = route now (s.times fd)) ∧
      (∀ fd, fd ≠ 3 →
        routings fd log + (if s.masterfds fd = true then 1 else 0) ≤ accepts fd log) :=
  ⟨_, _, rfl, rfl, readiness_invariant 3 (fun _ => 0)
    [.accept 4 100, .select (fun _ => true), .scan 100, .scan 100, .scan 100,
      .scan 100, .scan 100, .scan 100] _ _ rfl⟩

/-- A descriptor that does not fit the `fd_set` cannot be inserted: line 251
would set a bit outside `masterfds` and line 256 a slot outside `times`. -/
theorem connection_routine_bound (s : Readiness) (fd : Nat) (now : Int) :
    (connection_routine s fd now).isSome = true ↔ fd < FD_SETSIZE := by
  unfold connection_routine FD_SET
  by_cases h : fd < FD_SETSIZE
  · simp [h]
  · simp [h]

/-- Claim C6 fails on the code. Three ways out of `handle_request` leave the
socket open: a request that does not begin with `GET`, a first `read` that
returns 0 or -1, and a `sendfile` error (the file is closed there, the socket
is not). -/
theorem socket_left_open (init : Nat → Nat) (fs : List Nat → Option (List Nat))
    (sf : List Nat → Option Nat) :
    handle_request init fs sf [.data (bytes "POST / HTTP/1.1\r\n\r\n")] = .returned [] ∧
    handle_request init fs sf [.data []] = .returned [] ∧
    handle_request init fs sf [.error] = .returned [] ∧
    handle_request init (fun _ => some (bytes "hello")) (fun _ => none)
        [.data (bytes "GET /a.txt HTTP/1.1\r\n\r\n")] =
      .returned [.stat (bytes "a.txt"),
        .write (bytes "HTTP/1.1 200 OK\r\nContent-Length: 5\r\nContent-Type: text/plain\r\n\r\n"),
        .openFile (bytes "a.txt"), .closeFile] ∧
    sockCloses [] = 0 ∧
    sockCloses [.stat (bytes "a.txt"),
        .write (bytes "HTTP/1.1 200 OK\r\nContent-Length: 5\r\nContent-Type: text/plain\r\n\r\n"),
        .openFile (bytes "a.txt"), .closeFile] = 0 := by
  refine ⟨?_, ?_, ?_, ?_, rfl, by decide⟩
  · unfold handle_request
    rw [read_loop_single init _ [] (by decide) (by decide) (by decide)
      ((strstr_isSome_iff _ _).1 (by decide))]
    rfl
  · rfl
  · rfl
  · have := handle_get init (fun _ => some (bytes "hello")) (fun _ => none) (bytes "a.txt") []
      (by decide) (by decide) (by decide)
    rw [show bytes "GET /a.txt HTTP/1.1\r\n\r\n" =
      bytes "GET /" ++ bytes "a.txt" ++ bytes " HTTP/1.1\r\n\r\n" by decide, this]
    decide

/-- Two reads of 4095 bytes with no blank line in the first: the second trip
through the loop stores the final zero at index 8190. -/
theorem read_loop_overflow (init : Nat → Nat) (r1 r2 : List Nat)
    (h1 : r1.length = 4095) (h2 : r2.length = 4095) (h0 : 0 ∉ r1)
    (hno : strstr r1 (bytes "\r\n\r\n") = none) :
    read_loop init 0 [.data r1, .data r2] = .outOfBounds := by
  rw [read_loop_first init r1 _ (by omega) (by omega) h0, hno]
  have hret : (ReadRes.data r2).ret = 4095 := by
    show ((r2.take 4095).length : Int) = 4095
    rw [List.take_of_length_le (by omega), h2]
    rfl
  have hn : ¬ (((r1.length : Nat) : Int) + (ReadRes.data r2).ret ≤ 0) := by
    rw [hret, h1]; decide
  have hb : (4096 : Int) ≤ ((r1.length : Nat) : Int) + (ReadRes.data r2).ret := by
    rw [hret, h1]; decide
  simp only [Option.isSome_none, Bool.false_eq_true, if_false]
  unfold read_loop
  simp only [hn, hb, if_false, if_true]

/-- Claim C7 fails on the code. A request `GET` with no slash makes
`strstr(buff, "/")` NULL, which is passed on to `strstr`; a request with a
slash and no space after it makes `space` NULL, which is used in pointer
arithmetic and as a copy length; and two reads of 4095 bytes with no blank line
make `n` 8190, so `buff[n] = 0` stores outside the 4096-byte array. -/
theorem request_line_faults (init : Nat → Nat) (fs : List Nat → Option (List Nat))
    (sf : List Nat → Option Nat) :
    handle_request init fs sf [.data (bytes "GET\r\n\r\n")] = .fault [] ∧
    handle_request init fs sf [.data (bytes "GET /foo\r\n\r\n")] = .fault [] ∧
    handle_request init fs sf
      [.data (List.replicate 4095 65), .data (List.replicate 4095 65)] = .fault [] := by
  refine ⟨?_, ?_, ?_⟩
  · unfold handle_request
    rw [read_loop_single init _ [] (by decide) (by decide) (by decide)
      ((strstr_isSome_iff _ _).1 (by decide))]
    rfl
  · unfold handle_request
    rw [read_loop_single init _ [] (by decide) (by decide) (by decide)
      ((strstr_isSome_iff _ _).1 (by decide))]
    rfl
  · have hno : strstr (List.replicate 4095 65) (bytes "\r\n\r\n") = none := by
      rw [strstr_eq_none_iff]
      rintro ⟨a, b, hab⟩
      have h13 : 13 ∈ List.replicate 4095 65 := by
        rw [hab, show bytes "\r\n\r\n" = [13, 10, 13, 10] by decide]
        simp
      have := (List.mem_replicate.1 h13).2
      omega
    have hlen : (List.replicate 4095 65).length = 4095 := List.length_replicate _ _
    have h0 : 0 ∉ List.replicate 4095 65 := fun h => by
      have := (List.mem_replicate.1 h).2
      omega
    rw [handle_request, read_loop_overflow init _ _ hlen hlen h0 hno]

/-- After a first `read` of `GET /`, reads that return 0 change nothing: the
loop asks for more. -/
theorem read_loop_eof_spins (buf : Nat → Nat) (k : Nat) (h5 : buf 5 = 0)
    (hc : cstr buf 4096 0 = bytes "GET /") :
    read_loop buf 5 (List.replicate k (.data [])) = .waiting := by
  induction k with
  | zero => rfl
  | succ k ih =>
    have hb : Function.update ((ReadRes.data []).store buf)
        ((5 : Int) + (ReadRes.data []).ret).toNat 0 = buf := by
      have h1 : ((5 : Int) + (ReadRes.data []).ret).toNat = 5 := by decide
      rw [h1]
      funext i
      by_cases hi : i = 5
      · rw [hi, Function.update_same, h5]
      · rw [Function.update_noteq hi]
        rfl
    rw [List.replicate_succ]
    unfold read_loop
    have hn : ¬ ((5 : Int) + (ReadRes.data []).ret ≤ 0) := by decide
    have hm : ¬ ((4096 : Int) ≤ 5 + (ReadRes.data []).ret) := by decide
    have hs : (strstr (bytes "GET /") (bytes "\r\n\r\n")).isSome = false := by decide
    simp only [hn, hm, if_false, hb, hc, hs, Bool.false_eq_true]
    exact ih

/-- Claim C8 fails on the code. `n` is the running total, so after a `read` of 5
bytes a `read` that returns 0 leaves `n = 5` and one that returns -1 leaves
`n = 4`: the test `n <= 0` fails and the loop calls `read` again instead of
returning.  On a closed connection (every further `read` returns 0) it never
leaves the loop, however many reads are made. -/
theorem read_loop_keeps_reading (init : Nat → Nat) (fs : List Nat → Option (List Nat))
    (sf : List Nat → Option Nat) (k : Nat) :
    handle_request init fs sf [.data (bytes "GET /"), .data []] = .reading ∧
    handle_request init fs sf [.data (bytes "GET /"), .error] = .reading ∧
    handle_request init fs sf (.data (bytes "GET /") :: List.replicate k (.data [])) =
      .reading := by
  have hfirst : ∀ rest, read_loop init 0 (.data (bytes "GET /") :: rest) =
      read_loop (first_buffer init (bytes "GET /")) 5 rest := by
    intro rest
    rw [read_loop_first init _ rest (by decide) (by decide) (by decide),
      show (strstr (bytes "GET /") (bytes "\r\n\r\n")).isSome = false by decide]
    rfl
  have hspin : ∀ j, read_loop (first_buffer init (bytes "GET /")) 5
      (List.replicate j (.data [])) = .waiting := by
    intro j
    apply read_loop_eof_spins _ j rfl
    exact cstr_of_list _ _ _ _ (by decide) (by decide)
      (by
        intro i hi
        have hi5 : i < 5 := hi
        interval_cases i <;> rfl) rfl
  refine ⟨?_, ?_, ?_⟩
  · unfold handle_request
    rw [hfirst]
    have := hspin 1
    rw [show List.replicate 1 (ReadRes.data []) = [.data []] from rfl] at this
    rw [this]
  · unfold handle_request
    rw [hfirst]
    rfl
  · unfold handle_request
    rw [hfirst, hspin k]

/-- Claim C10 fails on the code. Every `read` stores at `buff[0]`, so the second
read overwrites the first: `GET /a HT` then `TP/1.1` plus blank line leaves a
buffer that begins `TP/1.1`, the `GET` check fails and the handler returns with
no response, while the same bytes in one read are parsed as a request for `a`
(here answered 404, the file being absent). -/
theorem split_request_differs (init : Nat → Nat) (sf : List Nat → Option Nat) :
    bytes "GET /a HT" ++ bytes "TP/1.1\r\n\r\n" = bytes "GET /a HTTP/1.1\r\n\r\n" ∧
    handle_request init (fun _ => none) sf
      [.data (bytes "GET /a HT"), .data (bytes "TP/1.1\r\n\r\n")] = .returned [] ∧
    handle_request init (fun _ => none) sf [.data (bytes "GET /a HTTP/1.1\r\n\r\n")] =
      .returned [.stat (bytes "a"),
        .write (bytes "HTTP/1.1 404 Not Found\r\n\r\nFile not found\n"), .closeSock] := by
  refine ⟨by decide, ?_, ?_⟩
  · rfl
  · unfold handle_request
    rw [read_loop_single init _ [] (by decide) (by decide) (by decide)
      ((strstr_isSome_iff _ _).1 (by decide))]
    rfl

end Thread3
